import Mathlib

/-!
Verification of the run-lifecycle core of the `openai-assistants-go` client.

The development shallow-embeds the Go sources:
* `pkg/runs` (data model, SSE stream decoding goroutines, the run service
  entry points `Create`, `CreateAndStream`, `CreateThreadAndRunStream`,
  `Get`, `SubmitToolOutputs`, `SubmitToolOutputsStream`),
* `client` (`SendRequest`, `APIError`),
* the two polling helpers `waitForRun`
  (`examples/practical-test-messages/main.go`) and `waitForRunCompletion`
  (the run-steps example `main.go`).

Conventions of the embedding:
* Go byte streams and strings are `List Char` / `String`; the SSE wire
  prefixes are ASCII, where Go's byte indexing and char indexing agree.
* Goroutine/channel delivery becomes the ordered `List RunEvent` a decode
  loop pushes before its `return`; closing the channel is the end of that
  list.
* HTTP traffic is a parameter: a function or `Except` value standing for
  the response the transport would deliver.  `encoding/json` unmarshalling
  is likewise a parameter (`String → Except String α`).
* Go `error` results that the code builds at distinct sites with distinct
  `fmt.Errorf` messages become inductive error types whose constructors
  carry the formatted data.
* Pointer mutation (`req.Stream = true`) is modelled by returning the
  caller-visible struct value after the call.
* `float64` fields are never computed with by the client, only carried;
  they are embedded as their raw bit pattern.  Dynamic `interface{}` JSON
  fields become a generic `JsonValue`.
-/

/-- A `float64` value carried opaquely by its IEEE-754 bit pattern.  The
client never performs arithmetic on these fields; they are only marshalled
and unmarshalled. -/
structure GoFloat64 where
  bits : Nat
deriving DecidableEq

/-- A dynamic JSON value, for Go `interface{}` / `map[string]interface{}`
fields whose shape is caller-defined and only passed through. -/
inductive JsonValue where
  | null : JsonValue
  | bool (b : Bool) : JsonValue
  | num (x : GoFloat64) : JsonValue
  | str (s : String) : JsonValue
  | arr (elems : List JsonValue) : JsonValue
  | obj (fields : List (String × JsonValue)) : JsonValue

/-- Go `types.Metadata = map[string]interface{}`, as an association list. -/
def Metadata : Type := List (String × JsonValue)

/-- `FunctionCall` from `pkg/runs`. -/
structure FunctionCall where
  name : String
  arguments : String
  output : String

/-- `ToolCall` from `pkg/runs`: a tool call that needs output. -/
structure ToolCall where
  id : String
  type : String
  function : Option FunctionCall

/-- `SubmitToolOutputs` struct from `pkg/runs` (the `required_action`
payload, not the service method of the same Go name). -/
structure SubmitToolOutputs where
  toolCalls : List ToolCall

/-- `RequiredAction` from `pkg/runs`. -/
structure RequiredAction where
  type : String
  submitToolOutputs : Option SubmitToolOutputs

/-- `ErrorObject` from `pkg/runs`. -/
structure ErrorObject where
  code : String
  message : String

/-- `Usage` from `pkg/runs`. -/
structure Usage where
  promptTokens : Int
  completionTokens : Int
  totalTokens : Int

/-- `FunctionTool` from `pkg/runs`. -/
structure FunctionTool where
  name : String
  description : String
  parameters : Option JsonValue

/-- `Tool` from `pkg/runs`. -/
structure Tool where
  type : String
  function : Option FunctionTool

/-- `CodeInterpreterResources` from `pkg/runs`. -/
structure CodeInterpreterResources where
  fileIDs : List String

/-- `FileSearchResources` from `pkg/runs`. -/
structure FileSearchResources where
  vectorStoreIDs : List String

/-- `ToolResources` from `pkg/runs`. -/
structure ToolResources where
  codeInterpreter : Option CodeInterpreterResources
  fileSearch : Option FileSearchResources

/-- `TruncationStrategy` from `pkg/runs`. -/
structure TruncationStrategy where
  type : String
  lastMessages : Option Int

/-- `Run` from `pkg/runs`: an execution run on a thread.  Field for field
the Go struct; `*T` becomes `Option`, `int64` becomes `Int`. -/
structure Run where
  id : String
  object : String
  createdAt : Int
  threadID : String
  assistantID : String
  status : String
  requiredAction : Option RequiredAction
  lastError : Option ErrorObject
  expiresAt : Option Int
  startedAt : Option Int
  cancelledAt : Option Int
  failedAt : Option Int
  completedAt : Option Int
  model : String
  instructions : Option String
  tools : List Tool
  toolResources : Option ToolResources
  metadata : Metadata
  usage : Option Usage
  temperature : Option GoFloat64
  topP : Option GoFloat64
  maxPromptTokens : Option Int
  maxCompletionTokens : Option Int
  truncationStrategy : Option TruncationStrategy
  responseFormat : Option JsonValue
  toolChoice : Option JsonValue
  parallelToolCalls : Bool

/-- `CreateRunRequest` from `pkg/runs`. -/
structure CreateRunRequest where
  assistantID : String
  model : Option String
  instructions : Option String
  additionalInstructions : Option String
  tools : List Tool
  toolResources : Option ToolResources
  metadata : Metadata
  temperature : Option GoFloat64
  topP : Option GoFloat64
  stream : Bool
  maxPromptTokens : Option Int
  maxCompletionTokens : Option Int
  truncationStrategy : Option TruncationStrategy
  responseFormat : Option JsonValue
  toolChoice : Option JsonValue
  parallelToolCalls : Option Bool

/-- `Message` from `pkg/runs` (thread-creation payload). -/
structure RunsMessage where
  role : String
  content : String
  metadata : Metadata

/-- `ThreadRequest` from `pkg/runs`. -/
structure ThreadRequest where
  messages : List RunsMessage
  metadata : Metadata

/-- `CreateThreadAndRunRequest` from `pkg/runs`; the Go struct embeds
`CreateRunRequest`, modelled as an explicit field.  Writing `req.Stream`
in Go reaches the embedded field. -/
structure CreateThreadAndRunRequest where
  assistantID : String
  thread : Option ThreadRequest
  createRunRequest : CreateRunRequest

/-- `ToolOutput` from `pkg/runs`. -/
structure ToolOutput where
  toolCallID : String
  output : String

/-- `SubmitToolOutputsRequest` from `pkg/runs`. -/
structure SubmitToolOutputsRequest where
  toolOutputs : List ToolOutput
  stream : Bool

/-- `RunEvent` from `pkg/runs`: one decoded SSE event.  `Data` is a
`json.RawMessage` (raw bytes), `none` when the Go slice is nil — the
terminal done event is built as `RunEvent{Event: "done"}` with nil data. -/
structure RunEvent where
  event : String
  data : Option String
deriving DecidableEq

/-! ## SSE decoder

The decode goroutine bodies of `createRunStream` and
`SubmitToolOutputsStream` in `pkg/runs` are textually identical:

```
for {
  line, err := reader.ReadString('\n')
  if err != nil {
    if err != io.EOF {
      events <- RunEvent{Event: "error", Data: json.RawMessage(fmt.Sprintf(...))}
    }
    return
  }
  line = strings.TrimSpace(line)
  if line == "" { continue }
  if strings.HasPrefix(line, "event: ") { currentEvent = strings.TrimPrefix(line, "event: "); continue }
  if strings.HasPrefix(line, "data: ") {
    data := strings.TrimPrefix(line, "data: ")
    if data == "[DONE]" { events <- RunEvent{Event: "done"}; return }
    events <- RunEvent{Event: currentEvent, Data: json.RawMessage(data)}
  }
}
```

`bufio.Reader.ReadString('\n')` yields full lines including the
terminator; at the end of the stream it yields the unterminated remainder
together with a non-nil error (`io.EOF` for a clean end), which the loop
checks *before* looking at the line — so trailing bytes not ended by a
newline are discarded on every exit path.  The input is therefore a list
of full lines plus a `StreamEnd`, produced from raw bytes by
`splitIntoLines`, whose second component (the unterminated remainder) is
dropped. -/

/-- How the byte stream ends after its last full line: a clean
end-of-stream (`io.EOF`) or a read error carrying a message. -/
inductive StreamEnd where
  | eof : StreamEnd
  | readErr (msg : String) : StreamEnd
deriving DecidableEq

/-- The characters of the Go literal `"event: "`. -/
def eventMarkerChars : List Char := ['e', 'v', 'e', 'n', 't', ':', ' ']

/-- The characters of the Go literal `"data: "`. -/
def dataMarkerChars : List Char := ['d', 'a', 't', 'a', ':', ' ']

/-- The characters of the Go literal `"[DONE]"`. -/
def doneTokenChars : List Char := ['[', 'D', 'O', 'N', 'E', ']']

/-- `strings.HasPrefix` on character lists (the prefixes used are ASCII,
where Go's byte prefix test agrees with the character prefix test). -/
def hasPrefixL : List Char → List Char → Bool
  | _, [] => true
  | [], _ :: _ => false
  | c :: cs, p :: ps => c == p && hasPrefixL cs ps

/-- `unicode.IsSpace`, the predicate `strings.TrimSpace` trims by. -/
def isGoSpace (c : Char) : Bool :=
  c == ' ' || c == '\t' || c == '\n' || c == '\r' ||
  c.toNat == 0x0B || c.toNat == 0x0C || c.toNat == 0x85 || c.toNat == 0xA0 ||
  c.toNat == 0x1680 || (0x2000 ≤ c.toNat && c.toNat ≤ 0x200A) ||
  c.toNat == 0x2028 || c.toNat == 0x2029 || c.toNat == 0x202F ||
  c.toNat == 0x205F || c.toNat == 0x3000

/-- `strings.TrimSpace` on character lists. -/
def trimSpaceChars (l : List Char) : List Char :=
  ((l.dropWhile isGoSpace).reverse.dropWhile isGoSpace).reverse

/-- The payload of the in-band error event:
`fmt.Sprintf("{\"error\":\"%s\"}", err.Error())`. -/
def errorEventData (msg : String) : String :=
  "\x7b\"error\":\"" ++ msg ++ "\"\x7d"

/-- The terminal event `RunEvent{Event: "done"}` (nil data). -/
def doneEvent : RunEvent := { event := "done", data := none }

/-- The in-band error event for a failed read. -/
def errorEvent (msg : String) : RunEvent :=
  { event := "error", data := some (errorEventData msg) }

/-- The decode loop shared by both streaming goroutines, over full lines.
`currentEvent` is the goroutine-local `var currentEvent string` (initially
Go's zero string).  The event list is the channel content, in order, until
the channel is closed. -/
def decodeLoop : List (List Char) → StreamEnd → List Char → List RunEvent
  | [], .eof, _ => []
  | [], .readErr msg, _ => [errorEvent msg]
  | l :: rest, e, currentEvent =>
    let line := trimSpaceChars l
    if line.isEmpty then
      decodeLoop rest e currentEvent
    else if hasPrefixL line eventMarkerChars then
      decodeLoop rest e (line.drop 7)
    else if hasPrefixL line dataMarkerChars then
      if line.drop 6 == doneTokenChars then
        [doneEvent]
      else
        { event := String.mk currentEvent, data := some (String.mk (line.drop 6)) }
          :: decodeLoop rest e currentEvent
    else
      decodeLoop rest e currentEvent

/-- The events emitted while processing full lines only (the loop before
it reaches the end of the line list). -/
def emitEvents : List (List Char) → List Char → List RunEvent
  | [], _ => []
  | l :: rest, currentEvent =>
    let line := trimSpaceChars l
    if line.isEmpty then
      emitEvents rest currentEvent
    else if hasPrefixL line eventMarkerChars then
      emitEvents rest (line.drop 7)
    else if hasPrefixL line dataMarkerChars then
      if line.drop 6 == doneTokenChars then
        [doneEvent]
      else
        { event := String.mk currentEvent, data := some (String.mk (line.drop 6)) }
          :: emitEvents rest currentEvent
    else
      emitEvents rest currentEvent

/-- The value of `currentEvent` after processing a list of lines. -/
def updName : List (List Char) → List Char → List Char
  | [], currentEvent => currentEvent
  | l :: rest, currentEvent =>
    let line := trimSpaceChars l
    if hasPrefixL line eventMarkerChars then
      updName rest (line.drop 7)
    else
      updName rest currentEvent

/-- A line that terminates the stream: after trimming it is a data line
whose payload is the `[DONE]` sentinel. -/
def isDoneLine (l : List Char) : Bool :=
  hasPrefixL (trimSpaceChars l) dataMarkerChars &&
    (trimSpaceChars l).drop 6 == doneTokenChars

/-- Splits raw bytes the way repeated `bufio.Reader.ReadString('\n')`
does: full lines including their terminator, plus the unterminated
remainder that is returned together with the end-of-stream condition. -/
def splitLinesAux : List Char → List Char → List (List Char) × List Char
  | acc, [] => ([], acc.reverse)
  | acc, c :: rest =>
    if c = '\n' then
      ((c :: acc).reverse :: (splitLinesAux [] rest).1, (splitLinesAux [] rest).2)
    else
      splitLinesAux (c :: acc) rest

/-- Full lines and unterminated remainder of a byte stream. -/
def splitIntoLines (bytes : List Char) : List (List Char) × List Char :=
  splitLinesAux [] bytes

/-- The event sequence the `createRunStream` goroutine delivers for a raw
byte stream: the unterminated remainder reported together with the final
read error is discarded, because the loop returns on `err != nil` before
looking at the returned line fragment. -/
def createRunStreamDecode (bytes : List Char) (e : StreamEnd) : List RunEvent :=
  decodeLoop (splitIntoLines bytes).1 e []

/-- The event sequence the `SubmitToolOutputsStream` goroutine delivers
for a raw byte stream (its loop body is textually identical to the one in
`createRunStream`). -/
def submitToolOutputsStreamDecode (bytes : List Char) (e : StreamEnd) : List RunEvent :=
  decodeLoop (splitIntoLines bytes).1 e []

/-! ## Transport: `client.SendRequest`

From `client/client.go`.  The HTTP round trip (`c.HTTPClient.Do`) and the
two `json.Unmarshal` calls are external collaborators, passed in as
parameters; everything else — reading the body, the status-code dispatch,
which error is produced at which site — is the code under verification.
`http.StatusOK` is the literal 200. -/

/-- The nested anonymous struct inside `client.APIError`. -/
structure APIErrorInfo where
  message : String
  type : String
  param : String
  code : String
deriving DecidableEq

/-- `client.APIError`: the structured error decoded from a non-success
response body. -/
structure APIError where
  errorInfo : APIErrorInfo
deriving DecidableEq

/-- An HTTP response as `SendRequest` consumes it: the status code and
the result of `io.ReadAll(resp.Body)`. -/
structure HttpResponse where
  statusCode : Nat
  bodyRead : Except String String

/-- The distinct failure sites of `client.SendRequest`, one constructor
per `return` of a non-nil error, carrying the data the Go code formats
into the message. -/
inductive SendError where
  | sendFailed (msg : String) : SendError
  | readBodyFailed (msg : String) : SendError
  | apiError (e : APIError) : SendError
  | statusFailed (code : Nat) (body : String) : SendError
  | decodeFailed (msg : String) : SendError
deriving DecidableEq

/-- `client.SendRequest`: send the request (`doResp` is the transport's
answer), read the body, map a status other than `http.StatusOK` (200) to
the `APIError` unmarshalled from the body — or to a generic status error
when the body does not unmarshal — and otherwise unmarshal the body into
the result. -/
def SendRequest {V : Type} (doResp : Except String HttpResponse)
    (unmarshalAPIError : String → Except String APIError)
    (unmarshalV : String → Except String V) : Except SendError V :=
  match doResp with
  | .error e => .error (.sendFailed e)
  | .ok resp =>
    match resp.bodyRead with
    | .error e => .error (.readBodyFailed e)
    | .ok body =>
      if resp.statusCode ≠ 200 then
        match unmarshalAPIError body with
        | .error _ => .error (.statusFailed resp.statusCode body)
        | .ok apiErr => .error (.apiError apiErr)
      else
        match unmarshalV body with
        | .error e => .error (.decodeFailed e)
        | .ok v => .ok v

/-! ## Run service operations (`pkg/runs`) -/

/-- The response a streaming POST delivers: status code and the raw SSE
body bytes with their end condition. -/
structure StreamResponse where
  statusCode : Nat
  body : List Char
  bodyEnd : StreamEnd

namespace Service

/-- `Service.Get`: builds the GET request and hands it to
`client.SendRequest` with `json.Unmarshal` into a `Run`.  The snapshot is
returned exactly as unmarshalled — no field is checked or rewritten. -/
def Get (doResp : Except String HttpResponse)
    (unmarshalAPIError : String → Except String APIError)
    (unmarshalRun : String → Except String Run) : Except SendError Run :=
  SendRequest doResp unmarshalAPIError unmarshalRun

/-- `createRunStream` after the request has been marshalled and sent
(`doPost` is the transport's answer): a non-200 status closes the body
and fails synchronously; otherwise the decode goroutine starts and the
channel carries `createRunStreamDecode` of the body. -/
def createRunStream (doPost : Except String StreamResponse) :
    Except String (List RunEvent) :=
  match doPost with
  | .error e => .error e
  | .ok resp =>
    if resp.statusCode ≠ 200 then
      .error ("unexpected status code: " ++ toString resp.statusCode)
    else
      .ok (createRunStreamDecode resp.body resp.bodyEnd)

/-- The streaming part of `SubmitToolOutputsStream` (same shape as
`createRunStream`, with its own textually identical goroutine). -/
def submitToolOutputsStreamOpen (doPost : Except String StreamResponse) :
    Except String (List RunEvent) :=
  match doPost with
  | .error e => .error e
  | .ok resp =>
    if resp.statusCode ≠ 200 then
      .error ("unexpected status code: " ++ toString resp.statusCode)
    else
      .ok (submitToolOutputsStreamDecode resp.body resp.bodyEnd)

/-- `Service.CreateAndStream`: sets `req.Stream = true` **through the
caller's pointer** and then opens the stream with the mutated request.
The first component is the caller's struct after the call (modelling the
in-place mutation); `doPost` receives the request that is marshalled and
sent. -/
def CreateAndStream (req : CreateRunRequest)
    (doPost : CreateRunRequest → Except String StreamResponse) :
    CreateRunRequest × Except String (List RunEvent) :=
  let r := { req with stream := true }
  (r, createRunStream (doPost r))

/-- `Service.CreateThreadAndRunStream`: sets the embedded
`req.Stream = true` through the caller's pointer and opens the stream. -/
def CreateThreadAndRunStream (req : CreateThreadAndRunRequest)
    (doPost : CreateThreadAndRunRequest → Except String StreamResponse) :
    CreateThreadAndRunRequest × Except String (List RunEvent) :=
  let r := { req with createRunRequest := { req.createRunRequest with stream := true } }
  (r, createRunStream (doPost r))

/-- `Service.SubmitToolOutputs` (synchronous): marshals the caller's
request exactly as given — no mutation, no comparison against the run's
outstanding tool calls — and returns the transport's result verbatim.
`send` stands for marshal + POST to `.../submit_tool_outputs` +
`client.SendRequest` decoding into a `Run`. -/
def SubmitToolOutputs (send : SubmitToolOutputsRequest → Except SendError Run)
    (req : SubmitToolOutputsRequest) : Except SendError Run :=
  send req

/-- `Service.SubmitToolOutputsStream`: sets `req.Stream = true` through
the caller's pointer, then marshals and sends the mutated request and
starts the decode goroutine.  First component: the caller's struct after
the call. -/
def SubmitToolOutputsStream (req : SubmitToolOutputsRequest)
    (doPost : SubmitToolOutputsRequest → Except String StreamResponse) :
    SubmitToolOutputsRequest × Except String (List RunEvent) :=
  let r := { req with stream := true }
  (r, submitToolOutputsStreamOpen (doPost r))

end Service

/-- Modelled from the spec, for comparison with the code: the
`MismatchedToolCalls` condition of §4.3/§8 — the caller-supplied outputs
name a tool-call id outside the run's outstanding set, or fail to cover
some outstanding tool call. -/
def specMismatchedToolCalls (outstanding : List ToolCall)
    (outputs : List ToolOutput) : Bool :=
  outputs.any (fun o => !(outstanding.any (fun c => c.id == o.toolCallID))) ||
    outstanding.any (fun c => !(outputs.any (fun o => o.toolCallID == c.id)))

/-! ## The polling settle-wait helpers

`waitForRun` (`examples/practical-test-messages/main.go`) and
`waitForRunCompletion` (the run-steps example).  `service.Get` is the
external poll, passed as `polls : Nat → Except String Run` giving the
outcome of the `i`-th poll.  Real-time waiting (`time.Sleep`, the 2 s
ticker) has no effect on the returned value and is dropped; the
`time.After` timeout of `waitForRunCompletion` becomes the number of
ticker fires that occur before the timeout channel fires (its fuel), and
`waitForRun`'s `maxAttempts = 60` is its fuel. -/

/-- The distinct failure sites of the two wait helpers, one constructor
per `fmt.Errorf` site (`pollErr` propagates the poll's own error). -/
inductive WaitError where
  | pollErr (msg : String) : WaitError
  | unexpectedStatusErr (status : String) : WaitError
  | timeoutErr : WaitError
deriving DecidableEq

/-- The statuses of `waitForRun`'s first switch case
(`"completed", "failed", "cancelled"`). -/
def waitForRunTerminal (s : String) : Bool :=
  s == "completed" || s == "failed" || s == "cancelled"

/-- The statuses of `waitForRun`'s continue case
(`"queued", "in_progress"`). -/
def waitForRunContinue (s : String) : Bool :=
  s == "queued" || s == "in_progress"

/-- The stopping condition of `waitForRunCompletion`:
`status == "completed" || "failed" || "cancelled" || "requires_action"`. -/
def completionStop (s : String) : Bool :=
  s == "completed" || s == "failed" || s == "cancelled" || s == "requires_action"

/-- Every status `waitForRun`'s switch knows: the three return cases,
`requires_action`, and the two continue cases.  Anything else hits the
default branch. -/
def waitForRunKnown (s : String) : Bool :=
  waitForRunTerminal s || s == "requires_action" || waitForRunContinue s

/-- The loop of `waitForRun`, polling from index `i` with the given
remaining attempts. -/
def waitForRunGo (polls : Nat → Except String Run) : Nat → Nat → Except WaitError Run
  | _, 0 => .error .timeoutErr
  | i, fuel + 1 =>
    match polls i with
    | .error e => .error (.pollErr e)
    | .ok run =>
      if waitForRunTerminal run.status then .ok run
      else if run.status == "requires_action" then .ok run
      else if waitForRunContinue run.status then waitForRunGo polls (i + 1) fuel
      else .error (.unexpectedStatusErr run.status)

/-- `waitForRun` from `examples/practical-test-messages/main.go`:
`maxAttempts = 60`. -/
def waitForRun (polls : Nat → Except String Run) : Except WaitError Run :=
  waitForRunGo polls 0 60

/-- The loop of `waitForRunCompletion`, polling from index `i` with the
given number of ticker fires left before the timeout channel fires. -/
def waitForRunCompletionGo (polls : Nat → Except String Run) :
    Nat → Nat → Except WaitError Run
  | _, 0 => .error .timeoutErr
  | i, fuel + 1 =>
    match polls i with
    | .error e => .error (.pollErr e)
    | .ok run =>
      if completionStop run.status then .ok run
      else waitForRunCompletionGo polls (i + 1) fuel

/-- `waitForRunCompletion` from the run-steps example: polls on each
ticker fire until a stopping status or the timeout. -/
def waitForRunCompletion (polls : Nat → Except String Run) (ticks : Nat) :
    Except WaitError Run :=
  waitForRunCompletionGo polls 0 ticks

/-- The spec's §3/§4.2 invariant on a run snapshot: `required_action` is
non-null exactly when the status is `requires_action`. -/
def runInvariant (r : Run) : Prop :=
  r.requiredAction.isSome = true ↔ r.status = "requires_action"

/-! ## Decoder lemmas -/

/-- The events the loop pushes when it runs off the end of the line list:
nothing on a clean `io.EOF`, the single in-band error event otherwise. -/
def termEvents : StreamEnd → List RunEvent
  | .eof => []
  | .readErr msg => [errorEvent msg]

theorem hasPrefixL_data_not_nil (t : List Char)
    (h : hasPrefixL t dataMarkerChars = true) : t.isEmpty = false := by
  cases t with
  | nil => simp [hasPrefixL, dataMarkerChars] at h
  | cons c cs => simp

theorem hasPrefixL_event_not_nil (t : List Char)
    (h : hasPrefixL t eventMarkerChars = true) : t.isEmpty = false := by
  cases t with
  | nil => simp [hasPrefixL, eventMarkerChars] at h
  | cons c cs => simp

theorem hasPrefixL_data_not_event (t : List Char)
    (h : hasPrefixL t dataMarkerChars = true) :
    hasPrefixL t eventMarkerChars = false := by
  cases t with
  | nil => simp [hasPrefixL, dataMarkerChars] at h
  | cons c cs =>
    simp [hasPrefixL, dataMarkerChars, eventMarkerChars] at h ⊢
    rintro rfl
    simp [h.1] at *

theorem hasPrefixL_event_not_data (t : List Char)
    (h : hasPrefixL t eventMarkerChars = true) :
    hasPrefixL t dataMarkerChars = false := by
  cases t with
  | nil => simp [hasPrefixL, eventMarkerChars] at h
  | cons c cs =>
    simp [hasPrefixL, dataMarkerChars, eventMarkerChars] at h ⊢
    rintro rfl
    simp [h.1] at *

/-- An event-name line is never the done sentinel. -/
theorem isDoneLine_false_of_event (l : List Char)
    (h : hasPrefixL (trimSpaceChars l) eventMarkerChars = true) :
    isDoneLine l = false := by
  simp [isDoneLine, hasPrefixL_event_not_data _ h]

/-- Splitting the loop at a sentinel-free prefix of the line list: the
prefix contributes its events and its event-name updates, then the loop
continues. -/
theorem decodeLoop_append (l1 l2 : List (List Char)) (e : StreamEnd) (cur : List Char)
    (h : ∀ l ∈ l1, isDoneLine l = false) :
    decodeLoop (l1 ++ l2) e cur = emitEvents l1 cur ++ decodeLoop l2 e (updName l1 cur) := by
  induction l1 generalizing cur with
  | nil => simp [emitEvents, updName]
  | cons l rest ih =>
    have hl : isDoneLine l = false := h l (List.mem_cons_self ..)
    have hrest : ∀ x ∈ rest, isDoneLine x = false := fun x hx => h x (List.mem_cons_of_mem _ hx)
    simp only [List.cons_append, decodeLoop, emitEvents, updName]
    cases htl : trimSpaceChars l with
    | nil =>
      have hev0 : hasPrefixL ([] : List Char) eventMarkerChars = false := by
        simp [hasPrefixL, eventMarkerChars]
      simp [hev0, ih _ hrest]
    | cons c cs =>
      by_cases hev : hasPrefixL (c :: cs) eventMarkerChars = true
      · simp [hev, ih _ hrest]
      · have hev' : hasPrefixL (c :: cs) eventMarkerChars = false := by
          simpa using hev
        by_cases hdat : hasPrefixL (c :: cs) dataMarkerChars = true
        · by_cases hdone : ((c :: cs).drop 6 == doneTokenChars) = true
          · exfalso
            rw [isDoneLine, htl, hdat, hdone] at hl
            simp at hl
          · have hdone2 : ¬ List.drop 5 cs = doneTokenChars := by simpa using hdone
            simp [hev', hdat, hdone2, ih _ hrest]
        · have hdat' : hasPrefixL (c :: cs) dataMarkerChars = false := by
            simpa using hdat
          simp [hev', hdat', ih _ hrest]

/-- A sentinel-free line list never produces the nil-data done event. -/
theorem doneEvent_not_mem_emitEvents (lines : List (List Char)) (cur : List Char)
    (h : ∀ l ∈ lines, isDoneLine l = false) :
    doneEvent ∉ emitEvents lines cur := by
  induction lines generalizing cur with
  | nil => simp [emitEvents]
  | cons l rest ih =>
    have hl : isDoneLine l = false := h l (List.mem_cons_self ..)
    have hrest : ∀ x ∈ rest, isDoneLine x = false := fun x hx => h x (List.mem_cons_of_mem _ hx)
    simp only [emitEvents]
    cases htl : trimSpaceChars l with
    | nil =>
      have hev0 : hasPrefixL ([] : List Char) eventMarkerChars = false := by
        simp [hasPrefixL, eventMarkerChars]
      simpa [hev0] using ih _ hrest
    | cons c cs =>
      by_cases hev : hasPrefixL (c :: cs) eventMarkerChars = true
      · simpa [hev] using ih _ hrest
      · have hev' : hasPrefixL (c :: cs) eventMarkerChars = false := by
          simpa using hev
        by_cases hdat : hasPrefixL (c :: cs) dataMarkerChars = true
        · by_cases hdone : ((c :: cs).drop 6 == doneTokenChars) = true
          · exfalso
            rw [isDoneLine, htl, hdat, hdone] at hl
            simp at hl
          · have hdone2 : ¬ List.drop 5 cs = doneTokenChars := by simpa using hdone
            have hmem := ih cur hrest
            simp [hev', hdat, hdone2, doneEvent]
            exact hmem
        · have hdat' : hasPrefixL (c :: cs) dataMarkerChars = false := by
            simpa using hdat
          simpa [hev', hdat'] using ih _ hrest

/-- Running off the end of a sentinel-free line list adds the terminator
events. -/
theorem decodeLoop_eq_emit_term (lines : List (List Char)) (e : StreamEnd) (cur : List Char)
    (h : ∀ l ∈ lines, isDoneLine l = false) :
    decodeLoop lines e cur = emitEvents lines cur ++ termEvents e := by
  have h2 := decodeLoop_append lines [] e cur h
  rw [List.append_nil] at h2
  rw [h2]
  cases e <;> simp [decodeLoop, termEvents]

/-- If the line list contains a `[DONE]` data line, the loop reaches the
first of them and stops there with the single done event. -/
theorem decodeLoop_done_last (lines : List (List Char)) (e : StreamEnd) (cur : List Char)
    (h : ∃ l ∈ lines, isDoneLine l = true) :
    ∃ pre, decodeLoop lines e cur = pre ++ [doneEvent] ∧ doneEvent ∉ pre := by
  induction lines generalizing cur with
  | nil => simp at h
  | cons l rest ih =>
    by_cases hl : isDoneLine l = true
    · have hdat : hasPrefixL (trimSpaceChars l) dataMarkerChars = true := by
        rw [isDoneLine, Bool.and_eq_true] at hl
        exact hl.1
      have hdone : ((trimSpaceChars l).drop 6 == doneTokenChars) = true := by
        rw [isDoneLine, Bool.and_eq_true] at hl
        exact hl.2
      refine ⟨[], ?_, by simp⟩
      cases htl : trimSpaceChars l with
      | nil =>
        rw [htl] at hdat
        simp [hasPrefixL, dataMarkerChars] at hdat
      | cons c cs =>
        rw [htl] at hdat hdone
        have hev' : hasPrefixL (c :: cs) eventMarkerChars = false :=
          hasPrefixL_data_not_event _ hdat
        have hdone2 : List.drop 5 cs = doneTokenChars := by simpa using hdone
        simp [decodeLoop, htl, hev', hdat, hdone2]
    · have hrest : ∃ x ∈ rest, isDoneLine x = true := by
        rcases h with ⟨x, hx, hxd⟩
        rcases List.mem_cons.mp hx with rfl | hx'
        · exact absurd hxd hl
        · exact ⟨x, hx', hxd⟩
      have hl' : isDoneLine l = false := by simpa using hl
      simp only [decodeLoop]
      cases htl : trimSpaceChars l with
      | nil =>
        have hev0 : hasPrefixL ([] : List Char) eventMarkerChars = false := by
          simp [hasPrefixL, eventMarkerChars]
        simpa [hev0] using ih _ hrest
      | cons c cs =>
        by_cases hev : hasPrefixL (c :: cs) eventMarkerChars = true
        · simpa [hev] using ih _ hrest
        · have hev' : hasPrefixL (c :: cs) eventMarkerChars = false := by
            simpa using hev
          by_cases hdat : hasPrefixL (c :: cs) dataMarkerChars = true
          · by_cases hdone : ((c :: cs).drop 6 == doneTokenChars) = true
            · exfalso
              rw [isDoneLine, htl, hdat, hdone] at hl'
              simp at hl'
            · have hdone2 : ¬ List.drop 5 cs = doneTokenChars := by simpa using hdone
              rcases ih cur hrest with ⟨pre, hpre, hnm⟩
              refine ⟨{ event := String.mk cur, data := some (String.mk ((c :: cs).drop 6)) } :: pre,
                ?_, ?_⟩
              · simp [hev', hdat, hdone2, hpre]
              · simp only [List.mem_cons, not_or]
                exact ⟨by simp [doneEvent], hnm⟩
          · have hdat' : hasPrefixL (c :: cs) dataMarkerChars = false := by
              simpa using hdat
            simpa [hev', hdat'] using ih _ hrest

theorem updName_append (a b : List (List Char)) (cur : List Char) :
    updName (a ++ b) cur = updName b (updName a cur) := by
  induction a generalizing cur with
  | nil => simp [updName]
  | cons l rest ih =>
    simp only [List.cons_append, updName]
    by_cases hev : hasPrefixL (trimSpaceChars l) eventMarkerChars = true
    · simp [hev, ih]
    · have hev' : hasPrefixL (trimSpaceChars l) eventMarkerChars = false := by simpa using hev
      simp [hev', ih]

theorem updName_no_event (lines : List (List Char)) (cur : List Char)
    (h : ∀ l ∈ lines, hasPrefixL (trimSpaceChars l) eventMarkerChars = false) :
    updName lines cur = cur := by
  induction lines with
  | nil => simp [updName]
  | cons l rest ih =>
    have hl := h l (List.mem_cons_self ..)
    simp only [updName, hl]
    simpa using ih fun x hx => h x (List.mem_cons_of_mem _ hx)

/-- Every event the loop emits from full lines of a sentinel-free list
originates in a data line of the stream and carries that line's payload
bytes — in particular none of them is produced by the error branch. -/
theorem emitEvents_from_data_lines (lines : List (List Char)) (cur : List Char)
    (h : ∀ l ∈ lines, isDoneLine l = false) :
    ∀ ev ∈ emitEvents lines cur, ∃ l ∈ lines,
      hasPrefixL (trimSpaceChars l) dataMarkerChars = true ∧
      ev.data = some (String.mk ((trimSpaceChars l).drop 6)) := by
  induction lines generalizing cur with
  | nil => simp [emitEvents]
  | cons l rest ih =>
    have hl : isDoneLine l = false := h l (List.mem_cons_self ..)
    have hrest : ∀ x ∈ rest, isDoneLine x = false := fun x hx => h x (List.mem_cons_of_mem _ hx)
    intro ev hev
    simp only [emitEvents] at hev
    cases htl : trimSpaceChars l with
    | nil =>
      rw [htl] at hev
      simp only [List.isEmpty_nil, if_true] at hev
      rcases ih _ hrest ev hev with ⟨x, hx, hxd, hd⟩
      exact ⟨x, List.mem_cons_of_mem _ hx, hxd, hd⟩
    | cons c cs =>
      rw [htl] at hev
      by_cases he : hasPrefixL (c :: cs) eventMarkerChars = true
      · simp only [List.isEmpty_cons, Bool.false_eq_true, if_false, he, if_true] at hev
        rcases ih _ hrest ev hev with ⟨x, hx, hxd, hd⟩
        exact ⟨x, List.mem_cons_of_mem _ hx, hxd, hd⟩
      · have he' : hasPrefixL (c :: cs) eventMarkerChars = false := by simpa using he
        by_cases hdat : hasPrefixL (c :: cs) dataMarkerChars = true
        · by_cases hdone : ((c :: cs).drop 6 == doneTokenChars) = true
          · exfalso
            rw [isDoneLine, htl, hdat, hdone] at hl
            simp at hl
          · have hdone2 : ¬ List.drop 5 cs = doneTokenChars := by simpa using hdone
            simp [he', hdat, hdone2] at hev
            rcases hev with rfl | hev'
            · refine ⟨l, List.mem_cons_self .., ?_, ?_⟩
              · rw [htl]; exact hdat
              · rw [htl]; simp
            · rcases ih _ hrest ev hev' with ⟨x, hx, hxd, hd⟩
              exact ⟨x, List.mem_cons_of_mem _ hx, hxd, hd⟩
        · have hdat' : hasPrefixL (c :: cs) dataMarkerChars = false := by simpa using hdat
          simp only [List.isEmpty_cons, Bool.false_eq_true, if_false, he', hdat'] at hev
          rcases ih _ hrest ev hev with ⟨x, hx, hxd, hd⟩
          exact ⟨x, List.mem_cons_of_mem _ hx, hxd, hd⟩

theorem splitLinesAux_no_newline (p : List Char) : ∀ acc, (∀ c ∈ p, c ≠ '\n') →
    splitLinesAux acc p = ([], acc.reverse ++ p) := by
  induction p with
  | nil => intro acc _; simp [splitLinesAux]
  | cons c rest ih =>
    intro acc h
    have hc : ¬ c = '\n' := h c (List.mem_cons_self ..)
    simp only [splitLinesAux, if_neg hc]
    rw [ih _ fun x hx => h x (List.mem_cons_of_mem _ hx)]
    simp

/-- Appending newline-free trailing bytes never changes the full lines of
a stream — they only extend the discarded unterminated remainder. -/
theorem splitLinesAux_append_lines (p : List Char) (hp : ∀ c ∈ p, c ≠ '\n') :
    ∀ xs acc, (splitLinesAux acc (xs ++ p)).1 = (splitLinesAux acc xs).1 := by
  intro xs
  induction xs with
  | nil =>
    intro acc
    rw [List.nil_append, splitLinesAux_no_newline p acc hp]
    simp [splitLinesAux]
  | cons c rest ih =>
    intro acc
    by_cases hc : c = '\n'
    · subst hc
      simp only [List.cons_append, splitLinesAux, if_pos rfl]
      simp [ih]
    · simp only [List.cons_append, splitLinesAux, if_neg hc]
      exact ih _

/-! ## Claim C1 -/

/-- C1: for every SSE byte stream, when a data line's payload equals the
literal `[DONE]` sentinel, the decoder emits exactly one terminal event
named "done" (the nil-data event built by the sentinel branch) as the
last event before the channel closes, and emits nothing after it — on
both the run-creation stream and the tool-output-submission stream. -/
theorem sse_done_sentinel_terminal (bytes : List Char) (e : StreamEnd)
    (h : ∃ l ∈ (splitIntoLines bytes).1, isDoneLine l = true) :
    (∃ pre, createRunStreamDecode bytes e = pre ++ [doneEvent] ∧ doneEvent ∉ pre) ∧
    (∃ pre, submitToolOutputsStreamDecode bytes e = pre ++ [doneEvent] ∧ doneEvent ∉ pre) :=
  ⟨decodeLoop_done_last _ e [] h, decodeLoop_done_last _ e [] h⟩

/-- The §8 scenario byte stream: a completed-run frame followed by the
sentinel frame. -/
def demoDoneBytes : List Char :=
  ("event: thread.run.completed\ndata: \x7b\"id\":\"run_1\",\"status\":\"completed\"\x7d\n\ndata: [DONE]\n\n").toList

theorem sse_done_sentinel_terminal_witness :
    (∃ pre, createRunStreamDecode demoDoneBytes .eof = pre ++ [doneEvent] ∧ doneEvent ∉ pre) ∧
    (∃ pre, submitToolOutputsStreamDecode demoDoneBytes .eof = pre ++ [doneEvent] ∧
      doneEvent ∉ pre) :=
  sse_done_sentinel_terminal demoDoneBytes .eof (by decide)

/-! ## Claim C6 -/

/-- C6: an emitted non-done event whose frame has no event-name line is
named by the nearest preceding `event: ` line: with `lev` the nearest
preceding event-name line (no event-name line and no sentinel among the
lines `l2` between it and the data line `ld`, which may include blank
frame boundaries), the event emitted for `ld` carries the name set by
`lev` — the current event name is set by each event-name line and is kept
across every other line shape, blank frame separators included. -/
theorem sse_sticky_event_name (l1 : List (List Char)) (lev : List Char)
    (l2 : List (List Char)) (ld : List Char) (l3 : List (List Char))
    (e : StreamEnd) (cur : List Char)
    (hev : hasPrefixL (trimSpaceChars lev) eventMarkerChars = true)
    (h1 : ∀ l ∈ l1, isDoneLine l = false)
    (h2 : ∀ l ∈ l2, isDoneLine l = false ∧
      hasPrefixL (trimSpaceChars l) eventMarkerChars = false)
    (hd : hasPrefixL (trimSpaceChars ld) dataMarkerChars = true)
    (hnd : ((trimSpaceChars ld).drop 6 == doneTokenChars) = false) :
    decodeLoop (l1 ++ lev :: (l2 ++ ld :: l3)) e cur =
      emitEvents (l1 ++ lev :: l2) cur ++
        { event := String.mk ((trimSpaceChars lev).drop 7),
          data := some (String.mk ((trimSpaceChars ld).drop 6)) }
          :: decodeLoop l3 e ((trimSpaceChars lev).drop 7) := by
  have hnodone : ∀ l ∈ l1 ++ lev :: l2, isDoneLine l = false := by
    intro x hx
    rcases List.mem_append.mp hx with hx1 | hx2
    · exact h1 x hx1
    · rcases List.mem_cons.mp hx2 with rfl | hx3
      · exact isDoneLine_false_of_event _ hev
      · exact (h2 x hx3).1
  have hassoc : l1 ++ lev :: (l2 ++ ld :: l3) = (l1 ++ lev :: l2) ++ (ld :: l3) := by
    simp
  rw [hassoc, decodeLoop_append _ _ _ _ hnodone]
  have hname : updName (l1 ++ lev :: l2) cur = (trimSpaceChars lev).drop 7 := by
    rw [updName_append]
    simp only [updName, hev, if_true]
    exact updName_no_event _ _ fun l hl => (h2 l hl).2
  rw [hname]
  cases htd : trimSpaceChars ld with
  | nil =>
    rw [htd] at hd
    simp [hasPrefixL, dataMarkerChars] at hd
  | cons c cs =>
    rw [htd] at hd hnd
    have hev2 : hasPrefixL (c :: cs) eventMarkerChars = false :=
      hasPrefixL_data_not_event _ hd
    have hnd2 : ¬ List.drop 5 cs = doneTokenChars := by simpa using hnd
    simp [decodeLoop, htd, hev2, hd, hnd2]

theorem sse_sticky_event_name_witness :
    decodeLoop ([("event: thread.run.created\n").toList] ++ ("event: thread.run.step\n").toList ::
        ([("\n").toList] ++ ("data: \x7b\"id\":1\x7d\n").toList :: [])) .eof [] =
      emitEvents ([("event: thread.run.created\n").toList] ++
          ("event: thread.run.step\n").toList :: [("\n").toList]) [] ++
        { event := String.mk ((trimSpaceChars (("event: thread.run.step\n").toList)).drop 7),
          data := some (String.mk ((trimSpaceChars (("data: \x7b\"id\":1\x7d\n").toList)).drop 6)) }
          :: decodeLoop [] .eof ((trimSpaceChars (("event: thread.run.step\n").toList)).drop 7) :=
  sse_sticky_event_name _ _ _ _ _ .eof [] (by decide) (by decide) (by decide) (by decide)
    (by decide)

/-! ## Claim C7 -/

/-- C7: the running decode loop never raises synchronously — on a read
error other than a clean end-of-stream it delivers exactly one
error-flagged event (named "error", carrying the failure description) as
the final event and then the sequence ends, while a clean end-of-stream
ends the sequence with no appended event at all; every event of the
normal part originates in a data line of the stream (none is produced by
the error branch).  The sentinel-free hypothesis says the loop actually
reaches the end of the stream instead of returning at a `[DONE]` line. -/
theorem sse_read_error_in_band (lines : List (List Char)) (cur : List Char) (m : String)
    (h : ∀ l ∈ lines, isDoneLine l = false) :
    decodeLoop lines (.readErr m) cur = emitEvents lines cur ++ [errorEvent m] ∧
    decodeLoop lines .eof cur = emitEvents lines cur ∧
    ∀ ev ∈ emitEvents lines cur, ∃ l ∈ lines,
      hasPrefixL (trimSpaceChars l) dataMarkerChars = true ∧
      ev.data = some (String.mk ((trimSpaceChars l).drop 6)) := by
  refine ⟨?_, ?_, emitEvents_from_data_lines lines cur h⟩
  · exact decodeLoop_eq_emit_term lines (.readErr m) cur h
  · have h2 := decodeLoop_eq_emit_term lines .eof cur h
    simpa [termEvents] using h2

theorem sse_read_error_in_band_witness :
    decodeLoop [("data: \x7b\"id\":1\x7d\n").toList] (.readErr "connection reset") [] =
      emitEvents [("data: \x7b\"id\":1\x7d\n").toList] [] ++ [errorEvent "connection reset"] ∧
    decodeLoop [("data: \x7b\"id\":1\x7d\n").toList] .eof [] =
      emitEvents [("data: \x7b\"id\":1\x7d\n").toList] [] ∧
    ∀ ev ∈ emitEvents [("data: \x7b\"id\":1\x7d\n").toList] [],
      ∃ l ∈ [("data: \x7b\"id\":1\x7d\n").toList],
        hasPrefixL (trimSpaceChars l) dataMarkerChars = true ∧
        ev.data = some (String.mk ((trimSpaceChars l).drop 6)) :=
  sse_read_error_in_band [("data: \x7b\"id\":1\x7d\n").toList] [] "connection reset" (by decide)

/-! ## Claim C10 -/

/-- C10: a final line not terminated by a newline before end-of-stream is
silently discarded without emitting any event — appending any
newline-free tail (even a complete data line or the `[DONE]` sentinel)
leaves both decoders' event sequences unchanged, so the channel closes
without that event and without a "done" or "error" event for it. -/
theorem sse_unterminated_line_discarded (bytes p : List Char)
    (hp : ∀ c ∈ p, c ≠ '\n') :
    createRunStreamDecode (bytes ++ p) .eof = createRunStreamDecode bytes .eof ∧
    submitToolOutputsStreamDecode (bytes ++ p) .eof = submitToolOutputsStreamDecode bytes .eof := by
  have hs := splitLinesAux_append_lines p hp bytes []
  constructor <;>
    simp [createRunStreamDecode, submitToolOutputsStreamDecode, splitIntoLines, hs]

theorem sse_unterminated_line_discarded_witness :
    createRunStreamDecode (("data: \x7b\"id\":1\x7d\n").toList ++ ("data: [DONE]").toList) .eof =
      createRunStreamDecode (("data: \x7b\"id\":1\x7d\n").toList) .eof ∧
    submitToolOutputsStreamDecode
        (("data: \x7b\"id\":1\x7d\n").toList ++ ("data: [DONE]").toList) .eof =
      submitToolOutputsStreamDecode (("data: \x7b\"id\":1\x7d\n").toList) .eof :=
  sse_unterminated_line_discarded (("data: \x7b\"id\":1\x7d\n").toList)
    (("data: [DONE]").toList) (by decide)

/-! ## Settle-wait lemmas -/

theorem waitForRunTerminal_not_continue (s : String)
    (h : waitForRunTerminal s = true) : waitForRunContinue s = false := by
  simp [waitForRunTerminal] at h
  rcases h with (rfl | rfl) | rfl <;> decide

theorem requiresAction_not_continue (s : String)
    (h : (s == "requires_action") = true) : waitForRunContinue s = false := by
  simp at h
  subst h
  decide

theorem completionStop_not_of_continue (s : String)
    (h : waitForRunContinue s = true) : completionStop s = false := by
  simp [waitForRunContinue] at h
  rcases h with rfl | rfl <;> decide

/-- Full characterization of success for `waitForRunCompletionGo`: it
returns `r` exactly when `r` is the first fetched snapshot whose status
stops the loop, reached without any poll error and within the tick
budget. -/
theorem waitForRunCompletionGo_ok_iff (polls : Nat → Except String Run) (fuel : Nat) :
    ∀ (i : Nat) (r : Run), waitForRunCompletionGo polls i fuel = .ok r ↔
      ∃ j, i ≤ j ∧ j < i + fuel ∧ polls j = .ok r ∧ completionStop r.status = true ∧
        ∀ k, i ≤ k → k < j → ∃ rk, polls k = .ok rk ∧ completionStop rk.status = false := by
  induction fuel with
  | zero =>
    intro i r
    constructor
    · intro h
      simp [waitForRunCompletionGo] at h
    · rintro ⟨j, hij, hlt, -⟩
      omega
  | succ fuel ih =>
    intro i r
    cases hp : polls i with
    | error e =>
      simp only [waitForRunCompletionGo, hp]
      constructor
      · intro h
        simp at h
      · rintro ⟨j, hij, hlt, hpj, hstop, hbefore⟩
        rcases Nat.eq_or_lt_of_le hij with rfl | hj
        · rw [hp] at hpj
          simp at hpj
        · rcases hbefore i (Nat.le_refl i) hj with ⟨rk, hrk, -⟩
          rw [hp] at hrk
          simp at hrk
    | ok run =>
      by_cases hs : completionStop run.status = true
      · simp only [waitForRunCompletionGo, hp, hs, if_true]
        constructor
        · intro h
          have hr : run = r := by simpa using h
          subst hr
          exact ⟨i, Nat.le_refl i, by omega, hp, hs, fun k hk1 hk2 => by omega⟩
        · rintro ⟨j, hij, hlt, hpj, hstop, hbefore⟩
          rcases Nat.eq_or_lt_of_le hij with rfl | hj
          · rw [hp] at hpj
            have hrr : run = r := by simpa using hpj
            rw [hrr]
          · rcases hbefore i (Nat.le_refl i) hj with ⟨rk, hrk, hrkstop⟩
            rw [hp] at hrk
            have : run = rk := by simpa using hrk
            subst this
            rw [hs] at hrkstop
            simp at hrkstop
      · have hs' : completionStop run.status = false := by simpa using hs
        simp only [waitForRunCompletionGo, hp, hs', Bool.false_eq_true, if_false]
        rw [ih (i + 1) r]
        constructor
        · rintro ⟨j, hij, hlt, hpj, hstop, hbefore⟩
          refine ⟨j, by omega, by omega, hpj, hstop, fun k hk1 hk2 => ?_⟩
          rcases Nat.eq_or_lt_of_le hk1 with rfl | hk
          · exact ⟨run, hp, hs'⟩
          · exact hbefore k (by omega) hk2
        · rintro ⟨j, hij, hlt, hpj, hstop, hbefore⟩
          have hji : j ≠ i := by
            rintro rfl
            rw [hp] at hpj
            have : run = r := by simpa using hpj
            subst this
            rw [hstop] at hs'
            simp at hs'
          refine ⟨j, by omega, by omega, hpj, hstop, fun k hk1 hk2 => ?_⟩
          exact hbefore k (by omega) hk2

/-- `waitForRunCompletionGo` has no unexpected-status branch: it can only
return a snapshot, a propagated poll error, or the timeout error. -/
theorem waitForRunCompletionGo_no_unexpected (polls : Nat → Except String Run) (fuel : Nat) :
    ∀ (i : Nat) (s : String),
      waitForRunCompletionGo polls i fuel ≠ .error (.unexpectedStatusErr s) := by
  induction fuel with
  | zero =>
    intro i s
    simp [waitForRunCompletionGo]
  | succ fuel ih =>
    intro i s
    cases hp : polls i with
    | error e => simp [waitForRunCompletionGo, hp]
    | ok run =>
      by_cases hs : completionStop run.status = true
      · simp [waitForRunCompletionGo, hp, hs]
      · have hs' : completionStop run.status = false := by simpa using hs
        simp only [waitForRunCompletionGo, hp, hs', Bool.false_eq_true, if_false]
        exact ih (i + 1) s

/-- Full characterization of the unexpected-status failure of
`waitForRunGo`: it is produced exactly when some poll reports a status
outside the six the switch knows, after earlier polls that all reported
`queued` or `in_progress`, within the attempt budget. -/
theorem waitForRunGo_unexpected_iff (polls : Nat → Except String Run) (fuel : Nat) :
    ∀ (i : Nat) (s : String),
      waitForRunGo polls i fuel = .error (.unexpectedStatusErr s) ↔
        ∃ j, i ≤ j ∧ j < i + fuel ∧ (∃ r, polls j = .ok r ∧ r.status = s) ∧
          waitForRunKnown s = false ∧
          ∀ k, i ≤ k → k < j → ∃ rk, polls k = .ok rk ∧ waitForRunContinue rk.status = true := by
  induction fuel with
  | zero =>
    intro i s
    constructor
    · intro h
      simp [waitForRunGo] at h
    · rintro ⟨j, hij, hlt, -⟩
      omega
  | succ fuel ih =>
    intro i s
    cases hp : polls i with
    | error e =>
      simp only [waitForRunGo, hp]
      constructor
      · intro h
        simp at h
      · rintro ⟨j, hij, hlt, ⟨r, hpj, -⟩, -, hbefore⟩
        rcases Nat.eq_or_lt_of_le hij with rfl | hj
        · rw [hp] at hpj
          simp at hpj
        · rcases hbefore i (Nat.le_refl i) hj with ⟨rk, hrk, -⟩
          rw [hp] at hrk
          simp at hrk
    | ok run =>
      by_cases ht : waitForRunTerminal run.status = true
      · simp only [waitForRunGo, hp, ht, if_true]
        constructor
        · intro h
          simp at h
        · rintro ⟨j, hij, hlt, ⟨r, hpj, hrs⟩, hknown, hbefore⟩
          rcases Nat.eq_or_lt_of_le hij with rfl | hj
          · rw [hp] at hpj
            have : run = r := by simpa using hpj
            subst this
            subst hrs
            rw [waitForRunKnown, ht] at hknown
            simp at hknown
          · rcases hbefore i (Nat.le_refl i) hj with ⟨rk, hrk, hrkc⟩
            rw [hp] at hrk
            have : run = rk := by simpa using hrk
            subst this
            rw [waitForRunTerminal_not_continue _ ht] at hrkc
            simp at hrkc
      · have ht' : waitForRunTerminal run.status = false := by simpa using ht
        by_cases hra : (run.status == "requires_action") = true
        · simp only [waitForRunGo, hp, ht', Bool.false_eq_true, if_false, hra, if_true]
          constructor
          · intro h
            simp at h
          · rintro ⟨j, hij, hlt, ⟨r, hpj, hrs⟩, hknown, hbefore⟩
            rcases Nat.eq_or_lt_of_le hij with rfl | hj
            · rw [hp] at hpj
              have : run = r := by simpa using hpj
              subst this
              subst hrs
              rw [waitForRunKnown, hra] at hknown
              simp at hknown
            · rcases hbefore i (Nat.le_refl i) hj with ⟨rk, hrk, hrkc⟩
              rw [hp] at hrk
              have : run = rk := by simpa using hrk
              subst this
              rw [requiresAction_not_continue _ hra] at hrkc
              simp at hrkc
        · have hra' : (run.status == "requires_action") = false := by simpa using hra
          by_cases hc : waitForRunContinue run.status = true
          · simp only [waitForRunGo, hp, ht', hra', Bool.false_eq_true, if_false, hc, if_true]
            rw [ih (i + 1) s]
            constructor
            · rintro ⟨j, hij, hlt, hpj, hknown, hbefore⟩
              refine ⟨j, by omega, by omega, hpj, hknown, fun k hk1 hk2 => ?_⟩
              rcases Nat.eq_or_lt_of_le hk1 with rfl | hk
              · exact ⟨run, hp, hc⟩
              · exact hbefore k (by omega) hk2
            · rintro ⟨j, hij, hlt, ⟨r, hpj, hrs⟩, hknown, hbefore⟩
              have hji : j ≠ i := by
                rintro rfl
                rw [hp] at hpj
                have : run = r := by simpa using hpj
                subst this
                subst hrs
                rw [waitForRunKnown, hc] at hknown
                simp at hknown
              refine ⟨j, by omega, by omega, ⟨r, hpj, hrs⟩, hknown, fun k hk1 hk2 => ?_⟩
              exact hbefore k (by omega) hk2
          · have hc' : waitForRunContinue run.status = false := by simpa using hc
            simp only [waitForRunGo, hp, ht', hra', hc', Bool.false_eq_true, if_false]
            constructor
            · intro h
              have hs : run.status = s := by simpa using h
              refine ⟨i, Nat.le_refl i, by omega, ⟨run, hp, hs⟩, ?_, fun k hk1 hk2 => by omega⟩
              subst hs
              rw [waitForRunKnown, ht', hra', hc']
              rfl
            · rintro ⟨j, hij, hlt, ⟨r, hpj, hrs⟩, hknown, hbefore⟩
              rcases Nat.eq_or_lt_of_le hij with rfl | hj
              · rw [hp] at hpj
                have : run = r := by simpa using hpj
                subst this
                subst hrs
                rfl
              · rcases hbefore i (Nat.le_refl i) hj with ⟨rk, hrk, hrkc⟩
                rw [hp] at hrk
                have : run = rk := by simpa using hrk
                subst this
                rw [hrkc] at hc'
                simp at hc'

/-- One unfolding of the `waitForRun` loop. -/
theorem waitForRunGo_succ (polls : Nat → Except String Run) (i fuel : Nat) :
    waitForRunGo polls i (fuel + 1) =
      match polls i with
      | .error e => .error (.pollErr e)
      | .ok run =>
        if waitForRunTerminal run.status then .ok run
        else if run.status == "requires_action" then .ok run
        else if waitForRunContinue run.status then waitForRunGo polls (i + 1) fuel
        else .error (.unexpectedStatusErr run.status) := rfl

/-- A run snapshot with the given status and required action, all other
fields defaulted, for concrete evaluations. -/
def mkRun (status : String) (ra : Option RequiredAction) : Run where
  id := "run_1"
  object := "thread.run"
  createdAt := 0
  threadID := "thread_1"
  assistantID := "asst_1"
  status := status
  requiredAction := ra
  lastError := none
  expiresAt := none
  startedAt := none
  cancelledAt := none
  failedAt := none
  completedAt := none
  model := "gpt-4"
  instructions := none
  tools := []
  toolResources := none
  metadata := []
  usage := none
  temperature := none
  topP := none
  maxPromptTokens := none
  maxCompletionTokens := none
  truncationStrategy := none
  responseFormat := none
  toolChoice := none
  parallelToolCalls := false

/-- A poll sequence that always reports status `expired`. -/
def pollsExpired : Nat → Except String Run := fun _ => .ok (mkRun "expired" none)

/-- A poll sequence that always reports status `cancelling`. -/
def pollsCancelling : Nat → Except String Run := fun _ => .ok (mkRun "cancelling" none)

/-- A poll sequence that always reports a status outside the spec's
enumeration. -/
def pollsBogus : Nat → Except String Run := fun _ => .ok (mkRun "some_new_status" none)

/-- A concrete function-call record. -/
def demoFunctionCall : FunctionCall :=
  { name := "get_weather", arguments := "\x7b\x7d", output := "" }

/-- Outstanding tool call `call_A`. -/
def demoToolCallA : ToolCall :=
  { id := "call_A", type := "function", function := some demoFunctionCall }

/-- Outstanding tool call `call_B`. -/
def demoToolCallB : ToolCall :=
  { id := "call_B", type := "function", function := some demoFunctionCall }

/-- A `required_action` with the outstanding tool-call set `{A}`. -/
def demoRequiredActionA : RequiredAction :=
  { type := "submit_tool_outputs",
    submitToolOutputs := some { toolCalls := [demoToolCallA] } }

/-- A `required_action` with the outstanding tool-call set `{A, B}`. -/
def demoRequiredActionAB : RequiredAction :=
  { type := "submit_tool_outputs",
    submitToolOutputs := some { toolCalls := [demoToolCallA, demoToolCallB] } }

/-- A snapshot stopped at `requires_action`. -/
def runRequiresAction : Run := mkRun "requires_action" (some demoRequiredActionA)

/-- A poll sequence reporting `queued`, then `requires_action`. -/
def pollsQueuedThenAction : Nat → Except String Run := fun i =>
  if i = 0 then .ok (mkRun "queued" none) else .ok runRequiresAction

/-! ## Claim C2 -/

/-- C2 counterexample: a poll reporting status `expired` is NOT a
stopping point that returns the snapshot with no error —
`waitForRunCompletion` keeps polling past it until its timeout, and
`waitForRun` hits its default branch and fails with the
unexpected-status error. -/
theorem settle_wait_expired_counterexample :
    waitForRun pollsExpired = .error (.unexpectedStatusErr "expired") ∧
    waitForRunCompletion pollsExpired 5 = .error .timeoutErr :=
  ⟨rfl, rfl⟩

/-- C2 (amended): `waitForRunCompletion` stops and returns the
last-fetched snapshot with no error exactly when the fetched status first
belongs to `{completed, failed, cancelled}` or is `requires_action`;
`expired` is not in that stopping set — `waitForRunCompletion` continues
polling past it, and `waitForRun` fails with an unexpected-status error
on it. -/
theorem settle_wait_stop_characterization :
    (∀ (polls : Nat → Except String Run) (ticks : Nat) (r : Run),
      waitForRunCompletion polls ticks = .ok r ↔
        ∃ j, j < ticks ∧ polls j = .ok r ∧ completionStop r.status = true ∧
          ∀ k, k < j → ∃ rk, polls k = .ok rk ∧ completionStop rk.status = false) ∧
    completionStop "expired" = false ∧
    (∀ (polls : Nat → Except String Run) (r : Run),
      polls 0 = .ok r → r.status = "expired" →
        waitForRun polls = .error (.unexpectedStatusErr "expired")) := by
  refine ⟨?_, by decide, ?_⟩
  · intro polls ticks r
    rw [waitForRunCompletion, waitForRunCompletionGo_ok_iff]
    constructor
    · rintro ⟨j, -, hlt, hpj, hstop, hbefore⟩
      exact ⟨j, by omega, hpj, hstop, fun k hk => hbefore k (by omega) hk⟩
    · rintro ⟨j, hlt, hpj, hstop, hbefore⟩
      exact ⟨j, by omega, by omega, hpj, hstop, fun k _ hk => hbefore k hk⟩
  · intro polls r hp hs
    have h1 : waitForRunTerminal r.status = false := by rw [hs]; decide
    have h2 : (r.status == "requires_action") = false := by rw [hs]; decide
    have h3 : waitForRunContinue r.status = false := by rw [hs]; decide
    rw [waitForRun, show (60 : Nat) = 59 + 1 from rfl, waitForRunGo_succ, hp]
    simp [hs]
    rw [if_neg (by decide), if_neg (by decide)]

theorem settle_wait_stop_characterization_witness :
    waitForRunCompletion pollsQueuedThenAction 3 = .ok runRequiresAction ∧
    waitForRun pollsExpired = .error (.unexpectedStatusErr "expired") :=
  ⟨(settle_wait_stop_characterization.1 pollsQueuedThenAction 3 _).mpr
      ⟨1, by omega, rfl, by decide, fun k hk => by
        interval_cases k
        exact ⟨mkRun "queued" none, rfl, by decide⟩⟩,
    settle_wait_stop_characterization.2.2 pollsExpired (mkRun "expired" none) rfl rfl⟩

/-! ## Claim C4 -/

/-- C4 counterexample: `cancelling` is inside the spec's status
enumeration, yet `waitForRun` produces the unexpected-status error on it;
and a status outside the enumeration makes `waitForRunCompletion`
silently continue polling to its timeout instead of failing hard. -/
theorem unexpected_status_counterexample :
    waitForRun pollsCancelling = .error (.unexpectedStatusErr "cancelling") ∧
    waitForRunCompletion pollsBogus 3 = .error .timeoutErr :=
  ⟨rfl, rfl⟩

/-- C4 (amended): `waitForRun` fails with the unexpected-status error
exactly when a poll reports a status outside the six its switch knows
(`completed`, `failed`, `cancelled`, `requires_action`, `queued`,
`in_progress`), after earlier polls all reporting `queued`/`in_progress`
— so the enumeration members `cancelling` and `expired` also trigger it —
while `waitForRunCompletion` never produces an unexpected-status error at
all, silently continuing to poll on statuses outside the enumeration. -/
theorem unexpected_status_characterization :
    (∀ (polls : Nat → Except String Run) (i fuel : Nat) (s : String),
      waitForRunGo polls i fuel = .error (.unexpectedStatusErr s) ↔
        ∃ j, i ≤ j ∧ j < i + fuel ∧ (∃ r, polls j = .ok r ∧ r.status = s) ∧
          waitForRunKnown s = false ∧
          ∀ k, i ≤ k → k < j → ∃ rk, polls k = .ok rk ∧ waitForRunContinue rk.status = true) ∧
    waitForRunKnown "cancelling" = false ∧
    waitForRunKnown "expired" = false ∧
    (∀ (polls : Nat → Except String Run) (i fuel : Nat) (s : String),
      waitForRunCompletionGo polls i fuel ≠ .error (.unexpectedStatusErr s)) :=
  ⟨fun polls i fuel s => waitForRunGo_unexpected_iff polls fuel i s, by decide, by decide,
    fun polls i fuel s => waitForRunCompletionGo_no_unexpected polls fuel i s⟩

theorem unexpected_status_characterization_witness :
    waitForRunGo pollsCancelling 0 60 = .error (.unexpectedStatusErr "cancelling") :=
  (unexpected_status_characterization.1 pollsCancelling 0 60 "cancelling").mpr
    ⟨0, Nat.le_refl 0, by omega, ⟨mkRun "cancelling" none, rfl, rfl⟩, by decide,
      fun k hk1 hk2 => by omega⟩

/-! ## Transport lemmas -/

/-- `SendRequest` succeeds exactly on a delivered response with a
readable body, status exactly 200, and a body that unmarshals into the
result. -/
theorem SendRequest_ok_iff {V : Type} (doResp : Except String HttpResponse)
    (uA : String → Except String APIError) (uV : String → Except String V) (v : V) :
    SendRequest doResp uA uV = .ok v ↔
      ∃ resp body, doResp = .ok resp ∧ resp.bodyRead = .ok body ∧
        resp.statusCode = 200 ∧ uV body = .ok v := by
  cases doResp with
  | error e => simp [SendRequest]
  | ok resp =>
    cases hb : resp.bodyRead with
    | error e => simp [SendRequest, hb]
    | ok body =>
      by_cases hst : resp.statusCode = 200
      · cases huv : uV body with
        | error m => simp [SendRequest, hb, hst, huv]
        | ok w => simp [SendRequest, hb, hst, huv]
      · cases hua : uA body with
        | error m => simp [SendRequest, hb, hst, hua]
        | ok e2 => simp [SendRequest, hb, hst, hua]

/-- On any status other than 200 with a body that unmarshals as an
`APIError`, `SendRequest` returns that structured error verbatim. -/
theorem SendRequest_apiError {V : Type} (doResp : Except String HttpResponse)
    (uA : String → Except String APIError) (uV : String → Except String V)
    (resp : HttpResponse) (body : String) (e : APIError)
    (h1 : doResp = .ok resp) (h2 : resp.bodyRead = .ok body)
    (h3 : resp.statusCode ≠ 200) (h4 : uA body = .ok e) :
    SendRequest doResp uA uV = .error (.apiError e) := by
  subst h1
  simp [SendRequest, h2, h3, h4]

/-- On any status other than 200 with a body that does not unmarshal as
an `APIError`, `SendRequest` returns the generic status error. -/
theorem SendRequest_statusFailed {V : Type} (doResp : Except String HttpResponse)
    (uA : String → Except String APIError) (uV : String → Except String V)
    (resp : HttpResponse) (body : String) (m : String)
    (h1 : doResp = .ok resp) (h2 : resp.bodyRead = .ok body)
    (h3 : resp.statusCode ≠ 200) (h4 : uA body = .error m) :
    SendRequest doResp uA uV = .error (.statusFailed resp.statusCode body) := by
  subst h1
  simp [SendRequest, h2, h3, h4]

/-- The empty structured error, what decoding `{}` yields. -/
def emptyAPIError : APIError :=
  { errorInfo := { message := "", type := "", param := "", code := "" } }

/-- A 201 Created response with a decodable body. -/
def resp201 : HttpResponse := { statusCode := 201, bodyRead := .ok "\x7b\x7d" }

/-- A 200 OK response with a decodable body. -/
def resp200 : HttpResponse := { statusCode := 200, bodyRead := .ok "\x7b\x7d" }

/-- A stand-in for `json.Unmarshal` into `APIError`: accepts the body
`{}`. -/
def unmarshalAPIErrorDemo : String → Except String APIError := fun s =>
  if s == "\x7b\x7d" then .ok emptyAPIError else .error "invalid character"

/-- A stand-in for `json.Unmarshal` into a result value: accepts `{}`. -/
def unmarshalBoolDemo : String → Except String Bool := fun s =>
  if s == "\x7b\x7d" then .ok true else .error "invalid character"

/-! ## Claim C5 -/

/-- C5 counterexample: 201 is a 2xx success status and its body decodes,
yet `SendRequest` takes the error path — the code tests
`resp.StatusCode != http.StatusOK`, i.e. `!= 200`, not "non-2xx" — and
returns the `APIError` unmarshalled from the body instead of decoding
the result. -/
theorem send_request_2xx_counterexample :
    (200 ≤ 201 ∧ 201 < 300) ∧
    @SendRequest Bool (.ok resp201) unmarshalAPIErrorDemo unmarshalBoolDemo =
      .error (.apiError emptyAPIError) :=
  ⟨by decide, rfl⟩

/-- C5 (amended): `SendRequest` decodes the body into the result and
returns no error exactly when the status is the literal 200 and the body
unmarshals; every other status — other 2xx codes included — takes the
error path, returning the structured `APIError` parsed from the body
when it parses, and the generic status error otherwise. -/
theorem send_request_status_dispatch :
    ∀ (V : Type) (doResp : Except String HttpResponse)
      (uA : String → Except String APIError) (uV : String → Except String V) (v : V),
      (SendRequest doResp uA uV = .ok v ↔
        ∃ resp body, doResp = .ok resp ∧ resp.bodyRead = .ok body ∧
          resp.statusCode = 200 ∧ uV body = .ok v) ∧
      (∀ resp body e, doResp = .ok resp → resp.bodyRead = .ok body →
        resp.statusCode ≠ 200 → uA body = .ok e →
        SendRequest doResp uA uV = .error (.apiError e)) ∧
      (∀ resp body m, doResp = .ok resp → resp.bodyRead = .ok body →
        resp.statusCode ≠ 200 → uA body = .error m →
        SendRequest doResp uA uV = .error (.statusFailed resp.statusCode body)) :=
  fun _V doResp uA uV v =>
    ⟨SendRequest_ok_iff doResp uA uV v,
      fun resp body e h1 h2 h3 h4 => SendRequest_apiError doResp uA uV resp body e h1 h2 h3 h4,
      fun resp body m h1 h2 h3 h4 => SendRequest_statusFailed doResp uA uV resp body m h1 h2 h3 h4⟩

theorem send_request_status_dispatch_witness :
    @SendRequest Bool (.ok resp201) unmarshalAPIErrorDemo unmarshalBoolDemo =
      .error (.apiError emptyAPIError) ∧
    @SendRequest Bool (.ok resp200) unmarshalAPIErrorDemo unmarshalBoolDemo = .ok true :=
  ⟨(send_request_status_dispatch Bool (.ok resp201) unmarshalAPIErrorDemo unmarshalBoolDemo
        true).2.1 resp201 "\x7b\x7d" emptyAPIError rfl rfl (by decide) rfl,
    (send_request_status_dispatch Bool (.ok resp200) unmarshalAPIErrorDemo unmarshalBoolDemo
        true).1.mpr ⟨resp200, "\x7b\x7d", rfl, rfl, rfl, rfl⟩⟩

/-! ## Claim C3 -/

/-- Caller-supplied outputs covering only `call_A`. -/
def reqOnlyA : SubmitToolOutputsRequest :=
  { toolOutputs := [{ toolCallID := "call_A", output := "output A" }], stream := false }

/-- A transport that accepts whatever submission it is given. -/
def acceptSend : SubmitToolOutputsRequest → Except SendError Run :=
  fun _ => .ok (mkRun "queued" none)

/-- C3 counterexample: for a run whose outstanding set is `{A, B}` and
outputs covering only `{A}` — mismatched in the spec's sense — the
submission does NOT fail with a MismatchedToolCalls condition: it
succeeds, silently submitting the partial set. -/
theorem mismatched_tool_calls_counterexample :
    specMismatchedToolCalls [demoToolCallA, demoToolCallB] reqOnlyA.toolOutputs = true ∧
    Service.SubmitToolOutputs acceptSend reqOnlyA = .ok (mkRun "queued" none) :=
  ⟨by decide, rfl⟩

/-- C3 (amended): the code has no client-side tool-call validation and no
MismatchedToolCalls condition (`SendError` has no such case): even when
the caller's outputs mismatch the run's outstanding set, both the
synchronous and the streaming submission forward exactly the caller's
request (the streaming one after setting its stream flag) and return the
transport's result verbatim. -/
theorem submit_tool_outputs_no_validation :
    ∀ (send : SubmitToolOutputsRequest → Except SendError Run)
      (doPost : SubmitToolOutputsRequest → Except String StreamResponse)
      (req : SubmitToolOutputsRequest) (outstanding : List ToolCall),
      specMismatchedToolCalls outstanding req.toolOutputs = true →
      Service.SubmitToolOutputs send req = send req ∧
      (Service.SubmitToolOutputsStream req doPost).2 =
        Service.submitToolOutputsStreamOpen (doPost { req with stream := true }) :=
  fun _ _ _ _ _ => ⟨rfl, rfl⟩

theorem submit_tool_outputs_no_validation_witness :
    Service.SubmitToolOutputs acceptSend reqOnlyA = acceptSend reqOnlyA ∧
    (Service.SubmitToolOutputsStream reqOnlyA (fun _ => .error "no stream")).2 =
      Service.submitToolOutputsStreamOpen ((fun _ => .error "no stream")
        { reqOnlyA with stream := true }) :=
  submit_tool_outputs_no_validation acceptSend (fun _ => .error "no stream") reqOnlyA
    [demoToolCallA, demoToolCallB] (by decide)

/-! ## Claim C8 -/

/-- A snapshot violating the spec invariant: terminal status with a
non-nil required action. -/
def badRun : Run := mkRun "completed" (some demoRequiredActionA)

/-- A stand-in for `json.Unmarshal` into `Run` for a body describing
`badRun`. -/
def unmarshalRunBad : String → Except String Run := fun _ => .ok badRun

/-- A stand-in for `json.Unmarshal` into `Run` for a body describing
`runRequiresAction`. -/
def unmarshalRunGood : String → Except String Run := fun _ => .ok runRequiresAction

/-- An `APIError` unmarshaller that rejects every body. -/
def unmarshalAPIErrorFail : String → Except String APIError := fun _ => .error "invalid"

/-- C8 counterexample: the client holds whatever snapshot the response
body decodes to — a `Get` whose body unmarshals to status "completed"
with a non-nil `required_action` returns that run unchanged, so a
client-held Run can violate the invariant. -/
theorem run_invariant_counterexample :
    Service.Get (.ok resp200) unmarshalAPIErrorFail unmarshalRunBad = .ok badRun ∧
    ¬ runInvariant badRun :=
  ⟨rfl, by unfold runInvariant; decide⟩

/-- C8 (amended): the client neither checks nor repairs the
status/required-action invariant: every Run a successful `Get` returns is
exactly the snapshot unmarshalled from the response body, so client-held
snapshots satisfy the invariant exactly when the server's snapshots do —
in particular, if every run the body can unmarshal to satisfies it, so
does the returned run. -/
theorem run_invariant_passthrough :
    ∀ (doResp : Except String HttpResponse) (uA : String → Except String APIError)
      (uR : String → Except String Run) (r : Run),
      Service.Get doResp uA uR = .ok r →
      (∃ resp body, doResp = .ok resp ∧ resp.bodyRead = .ok body ∧ uR body = .ok r) ∧
      ((∀ body r2, uR body = .ok r2 → runInvariant r2) → runInvariant r) := by
  intro doResp uA uR r h
  rw [Service.Get, SendRequest_ok_iff] at h
  rcases h with ⟨resp, body, hresp, hbody, -, hur⟩
  exact ⟨⟨resp, body, hresp, hbody, hur⟩, fun hall => hall body r hur⟩

theorem run_invariant_passthrough_witness : runInvariant runRequiresAction :=
  (run_invariant_passthrough (.ok resp200) unmarshalAPIErrorFail unmarshalRunGood
      runRequiresAction rfl).2
    (fun body r2 h => Except.ok.inj h ▸ (by unfold runInvariant; decide))

/-! ## Claim C9 -/

/-- C9: every streaming entry point sets the `Stream` field of the
caller-supplied request struct to `true` before marshalling and sending
it — the caller's struct after the call (first component) is the input
struct with `stream := true`, whatever its prior value, and the request
handed to the transport is exactly that mutated struct — whereas the
synchronous `SubmitToolOutputs` forwards the caller's request with the
`Stream` flag exactly as the caller set it. -/
theorem stream_flag_mutation :
    ∀ (r1 : CreateRunRequest) (p1 : CreateRunRequest → Except String StreamResponse)
      (r2 : CreateThreadAndRunRequest)
      (p2 : CreateThreadAndRunRequest → Except String StreamResponse)
      (r3 : SubmitToolOutputsRequest)
      (p3 : SubmitToolOutputsRequest → Except String StreamResponse)
      (send : SubmitToolOutputsRequest → Except SendError Run),
      (Service.CreateAndStream r1 p1).1 = { r1 with stream := true } ∧
      (Service.CreateAndStream r1 p1).1.stream = true ∧
      (Service.CreateAndStream r1 p1).2 =
        Service.createRunStream (p1 { r1 with stream := true }) ∧
      (Service.CreateThreadAndRunStream r2 p2).1 =
        { r2 with createRunRequest := { r2.createRunRequest with stream := true } } ∧
      (Service.CreateThreadAndRunStream r2 p2).1.createRunRequest.stream = true ∧
      (Service.CreateThreadAndRunStream r2 p2).2 =
        Service.createRunStream (p2
          { r2 with createRunRequest := { r2.createRunRequest with stream := true } }) ∧
      (Service.SubmitToolOutputsStream r3 p3).1 = { r3 with stream := true } ∧
      (Service.SubmitToolOutputsStream r3 p3).1.stream = true ∧
      (Service.SubmitToolOutputsStream r3 p3).2 =
        Service.submitToolOutputsStreamOpen (p3 { r3 with stream := true }) ∧
      Service.SubmitToolOutputs send r3 = send r3 :=
  fun _ _ _ _ _ _ _ => ⟨rfl, rfl, rfl, rfl, rfl, rfl, rfl, rfl, rfl, rfl⟩
